import Mathlib

/-!
Verification of the obsd.spread plugin core (src/unnamed/part_000 "main.ts",
src/unnamed/part_003 "main.tsx" + tests + README, src/unnamed/part_002
settings types).

The TypeScript source is shallowly embedded: JS strings are Lean `String`
(reasoned about through their `List Char` data), JS array combinators become
`List` functions, the fallible async `vault.read` becomes an explicit
`TFile → Except Unit String` parameter, and JS numbers at the settings
boundary are modelled as `ℚ` (NaN and the infinities are outside the model).
Global-flag regex replacement is embedded as explicit left-to-right scanners
that mirror each regex's matching behaviour; `^...` patterns with the `m`
flag track line starts of the original string.  Recursive scanners take a
fuel argument (always called with the input length) so that every
definition stays structurally recursive and kernel-computable.
-/

/-! ## Data model (main.ts: TFile from obsidian, ProcessedEntry, VirtualRow, config fields) -/

structure TFile where
  path : String
  basename : String
  extension : String
deriving DecidableEq

/-- An element of `this.data.data`; `file` is `none` when the entry is null,
file-less, or the file is not a `TFile` instance. -/
structure Entry where
  file : Option TFile
deriving DecidableEq

structure ProcessedEntry where
  file : TFile
  preview : String
  lineCount : Nat
  height : Nat
deriving DecidableEq

/-- Row of cards (part_000 includes the `index` field; part_003 is identical
without it). -/
structure VirtualRow where
  index : Nat
  entries : List ProcessedEntry
  height : Nat
deriving DecidableEq

/-- The four config fields of SpreadView.  `previewLines` is kept as `Nat`
here: the field is initialised to 5 and every assignment clamps an integer
slider value into [1,20] (see `ConfigState`/`loadConfig` below for the
rational-valued model of the settings boundary itself). -/
structure Config where
  previewLines : Nat
  showFileName : Bool
  stripFrontmatter : Bool
  monoFont : Bool
deriving DecidableEq

/-- Field initialisers of SpreadView / DEFAULT_SETTINGS (part_002). -/
def defaultConfig : Config :=
  { previewLines := 5, showFileName := true, stripFrontmatter := true, monoFont := false }

-- virtualization constants (main.ts)
def CARD_MIN_WIDTH : Nat := 250
def CARD_GAP : Nat := 12
def HEADER_HEIGHT : Nat := 39
def PREVIEW_PADDING : Nat := 24
def LINE_HEIGHT : Nat := 20
def CARD_BORDER : Nat := 2

/-! ## computeCardHeight (part_000 lines 202-207, part_003 lines 262-266) -/

def computeCardHeight (cfg : Config) (lineCount : Nat) : Nat :=
  let headerHeight := if cfg.showFileName then HEADER_HEIGHT else 0
  let contentLines := min lineCount cfg.previewLines
  let previewHeight := PREVIEW_PADDING + contentLines * LINE_HEIGHT
  headerHeight + previewHeight + CARD_BORDER

/-! ## computeHash (part_000 lines 357-363, part_003 lines 304-310) -/

/-- Fingerprint from `entries[i]?.file?.path ?? ""` samples. -/
def computeHash (entries : List Entry) : String :=
  if entries.isEmpty then ""
  else
    let first := (((entries[0]?).bind Entry.file).map TFile.path).getD ""
    let mid := (((entries[entries.length / 2]?).bind Entry.file).map TFile.path).getD ""
    let last := (((entries[entries.length - 1]?).bind Entry.file).map TFile.path).getD ""
    toString entries.length ++ "|" ++ first ++ "|" ++ mid ++ "|" ++ last

/-! ## groupIntoRows (part_000 lines 221-231, part_003 lines 294-302) -/

/-- Model of `Math.max(...xs)` for a spread of naturals; the `[]` case (JS `-Infinity`)
is unreachable at the call site because chunks are nonempty. -/
def jsMaxNat : List Nat → Nat
  | [] => 0
  | x :: xs => xs.foldl max x

/-- The chunking loop `for (let i = 0; i < entries.length; i += cardsPerRow)`.
`fuel` is the initial entry count; each step consumes at least one entry,
so the fuel never runs out at the call site (`perRow ≥ 1` there). -/
def groupRowsGo (perRow : Nat) : Nat → Nat → List ProcessedEntry → List VirtualRow
  | _, _, [] => []
  | 0, _, _ :: _ => []
  | fuel + 1, idx, e :: es =>
    let rowEntries := e :: es.take (perRow - 1)
    let rowHeight := jsMaxNat (rowEntries.map ProcessedEntry.height)
    { index := idx, entries := rowEntries, height := rowHeight }
      :: groupRowsGo perRow fuel (idx + 1) (es.drop (perRow - 1))

def groupIntoRows (entries : List ProcessedEntry) (containerWidth : Nat) : List VirtualRow :=
  let cardsPerRow := max 1 ((containerWidth + CARD_GAP) / (CARD_MIN_WIDTH + CARD_GAP))
  groupRowsGo cardsPerRow entries.length 0 entries

/-! ## JS string primitives used by the pipeline -/

/-- The character class `\s` of JS regexes (also the class trimmed by
`String.prototype.trim`): ASCII whitespace plus the Unicode space
separators, line separators and the BOM. -/
def isJsWs (c : Char) : Bool :=
  c = ' ' || c = '\t' || c = '\n' || c = '\r'
  || c.toNat = 11 || c.toNat = 12
  || c.toNat = 0xa0 || c.toNat = 0x1680
  || (0x2000 ≤ c.toNat && c.toNat ≤ 0x200a)
  || c.toNat = 0x2028 || c.toNat = 0x2029 || c.toNat = 0x202f
  || c.toNat = 0x205f || c.toNat = 0x3000 || c.toNat = 0xfeff

/-- Model of `String.prototype.trim`. -/
def jsTrim (l : List Char) : List Char :=
  ((l.dropWhile isJsWs).reverse.dropWhile isJsWs).reverse

/-- Model of `String.prototype.toLowerCase()` (ASCII case mapping; Unicode case
pairs beyond ASCII are outside this model). -/
def jsToLower (s : String) : String := String.mk (s.data.map Char.toLower)

/-- Model of `String.prototype.split("\n")`; never returns `[]` (splitting the empty
string gives `[""]`). -/
def splitNL : List Char → List (List Char)
  | [] => [[]]
  | c :: cs =>
    if c = '\n' then [] :: splitNL cs
    else
      match splitNL cs with
      | [] => [[c]]
      | p :: ps => (c :: p) :: ps

/-- Model of `Array.prototype.join("\n")`. -/
def joinNL : List (List Char) → List Char
  | [] => []
  | [p] => p
  | p :: ps => p ++ '\n' :: joinNL ps

def backtick : Char := Char.ofNat 96

/-! ## The fifteen replacement passes of stripMarkdown
(part_000 lines 30-47, part_003 lines 14-31)

Each `...Match` function decides whether a match of its regex starts at the
head of the given list; on success it returns the replacement text (for the
inline scanners) or the last consumed character (for the `^`-anchored
scanners, which all replace with the empty string) together with the
remaining input after the match. -/

/-- Scanner for un-anchored `/pat/g` patterns: find the leftmost match,
emit its replacement, continue after the match end. -/
def scanInline (matchFn : List Char → Option (List Char × List Char)) :
    Nat → List Char → List Char
  | 0, l => l
  | _ + 1, [] => []
  | fuel + 1, c :: cs =>
    match matchFn (c :: cs) with
    | some (rep, remaining) => rep ++ scanInline matchFn fuel remaining
    | none => c :: scanInline matchFn fuel cs

/-- Scanner for `/^pat/gm` patterns replacing with `""`: a match may only
start at a position that is the start of the original string or preceded by
a newline of the original string. -/
def scanLines (matchFn : List Char → Option (Char × List Char)) :
    Nat → Bool → List Char → List Char
  | 0, _, l => l
  | _ + 1, _, [] => []
  | fuel + 1, atLS, c :: cs =>
    if atLS then
      match matchFn (c :: cs) with
      | some (lastC, remaining) => scanLines matchFn fuel (lastC = '\n') remaining
      | none => c :: scanLines matchFn fuel (c = '\n') cs
    else c :: scanLines matchFn fuel (c = '\n') cs

def replaceAll (matchFn : List Char → Option (List Char × List Char)) (l : List Char) :
    List Char :=
  scanInline matchFn l.length l

def replaceLines (matchFn : List Char → Option (Char × List Char)) (l : List Char) :
    List Char :=
  scanLines matchFn l.length true l

/-- Pass `/^#{1,6}\s+/gm → ""`. -/
def headingMatch (l : List Char) : Option (Char × List Char) :=
  let hashes := l.takeWhile (fun c => c = '#')
  if 1 ≤ hashes.length && hashes.length ≤ 6 then
    let rest := l.dropWhile (fun c => c = '#')
    match (rest.takeWhile isJsWs).getLast? with
    | some w => some (w, rest.dropWhile isJsWs)
    | none => none
  else none

/-- Pass `/\*\*([^*]+)\*\*/g → $1`. -/
def boldMatch : List Char → Option (List Char × List Char)
  | '*' :: '*' :: rest =>
    let inner := rest.takeWhile (fun c => c ≠ '*')
    if 1 ≤ inner.length then
      match rest.dropWhile (fun c => c ≠ '*') with
      | '*' :: '*' :: after => some (inner, after)
      | _ => none
    else none
  | _ => none

/-- Pass `/\*([^*]+)\*/g → $1`. -/
def italicMatch : List Char → Option (List Char × List Char)
  | '*' :: rest =>
    let inner := rest.takeWhile (fun c => c ≠ '*')
    if 1 ≤ inner.length then
      match rest.dropWhile (fun c => c ≠ '*') with
      | '*' :: after => some (inner, after)
      | _ => none
    else none
  | _ => none

/-- Pass `/__([^_]+)__/g → $1`. -/
def boldUnderscoreMatch : List Char → Option (List Char × List Char)
  | '_' :: '_' :: rest =>
    let inner := rest.takeWhile (fun c => c ≠ '_')
    if 1 ≤ inner.length then
      match rest.dropWhile (fun c => c ≠ '_') with
      | '_' :: '_' :: after => some (inner, after)
      | _ => none
    else none
  | _ => none

/-- Pass `/_([^_]+)_/g → $1`. -/
def italicUnderscoreMatch : List Char → Option (List Char × List Char)
  | '_' :: rest =>
    let inner := rest.takeWhile (fun c => c ≠ '_')
    if 1 ≤ inner.length then
      match rest.dropWhile (fun c => c ≠ '_') with
      | '_' :: after => some (inner, after)
      | _ => none
    else none
  | _ => none

/-- Pass `/~~([^~]+)~~/g → $1`. -/
def strikeMatch : List Char → Option (List Char × List Char)
  | '~' :: '~' :: rest =>
    let inner := rest.takeWhile (fun c => c ≠ '~')
    if 1 ≤ inner.length then
      match rest.dropWhile (fun c => c ≠ '~') with
      | '~' :: '~' :: after => some (inner, after)
      | _ => none
    else none
  | _ => none

/-- The inline-code pattern (backtick, one or more non-backticks, backtick)
replaced by its inner text. -/
def codeMatch : List Char → Option (List Char × List Char)
  | c :: rest =>
    if c = backtick then
      let inner := rest.takeWhile (fun d => d ≠ backtick)
      if 1 ≤ inner.length then
        match rest.dropWhile (fun d => d ≠ backtick) with
        | _ :: after => some (inner, after)
        | [] => none
      else none
    else none
  | [] => none

/-- Pass `/\[([^\]]+)\]\([^)]+\)/g → $1`. -/
def linkMatch : List Char → Option (List Char × List Char)
  | '[' :: rest =>
    let txt := rest.takeWhile (fun c => c ≠ ']')
    if 1 ≤ txt.length then
      match rest.dropWhile (fun c => c ≠ ']') with
      | ']' :: '(' :: rest2 =>
        let url := rest2.takeWhile (fun c => c ≠ ')')
        if 1 ≤ url.length then
          match rest2.dropWhile (fun c => c ≠ ')') with
          | ')' :: after => some (txt, after)
          | _ => none
        else none
      | _ => none
    else none
  | _ => none

/-- Pass `/!\[([^\]]*)\]\([^)]+\)/g → ""` (the alt text may be empty). -/
def imageMatch : List Char → Option (List Char × List Char)
  | '!' :: '[' :: rest =>
    match rest.dropWhile (fun c => c ≠ ']') with
    | ']' :: '(' :: rest2 =>
      let url := rest2.takeWhile (fun c => c ≠ ')')
      if 1 ≤ url.length then
        match rest2.dropWhile (fun c => c ≠ ')') with
        | ')' :: after => some ([], after)
        | _ => none
      else none
    | _ => none
  | _ => none

/-- Pass `/\[\[([^\]|]+)\|?([^\]]*)\]\]/g` replaced by `alias || link`. -/
def wikilinkMatch : List Char → Option (List Char × List Char)
  | '[' :: '[' :: rest =>
    let link := rest.takeWhile (fun c => c ≠ ']' && c ≠ '|')
    if 1 ≤ link.length then
      let rest2 := rest.dropWhile (fun c => c ≠ ']' && c ≠ '|')
      let rest3 := match rest2 with
        | '|' :: r => r
        | r => r
      let aliasTxt := rest3.takeWhile (fun c => c ≠ ']')
      match rest3.dropWhile (fun c => c ≠ ']') with
      | ']' :: ']' :: after => some (if 1 ≤ aliasTxt.length then aliasTxt else link, after)
      | _ => none
    else none
  | _ => none

/-- Pass `/^>\s?/gm → ""`. -/
def blockquoteMatch : List Char → Option (Char × List Char)
  | '>' :: c :: cs => if isJsWs c then some (c, cs) else some ('>', c :: cs)
  | ['>'] => some ('>', [])
  | _ => none

/-- Pass `/^[-*+]\s+/gm → ""`. -/
def ulistMatch : List Char → Option (Char × List Char)
  | c :: cs =>
    if c = '-' || c = '*' || c = '+' then
      match (cs.takeWhile isJsWs).getLast? with
      | some w => some (w, cs.dropWhile isJsWs)
      | none => none
    else none
  | [] => none

/-- Pass `/^\d+\.\s+/gm → ""`. -/
def olistMatch (l : List Char) : Option (Char × List Char) :=
  let ds := l.takeWhile Char.isDigit
  if 1 ≤ ds.length then
    match l.dropWhile Char.isDigit with
    | '.' :: rest =>
      match (rest.takeWhile isJsWs).getLast? with
      | some w => some (w, rest.dropWhile isJsWs)
      | none => none
    | _ => none
  else none

/-! The horizontal-rule pass `/^(\s*[-*_]){3,}\s*$/gm → ""`.  The repeated
group greedily consumes (whitespace-run, marker) pairs; then the trailing
`\s*$` backtracks: it succeeds at the end of the string, else at the last
newline inside the trailing whitespace run, else the engine gives back one
repetition at a time (down to three) and retries on that repetition's
whitespace run. -/

def isHrMarker (c : Char) : Bool := c = '-' || c = '*' || c = '_'

/-- Greedy parse of the `(\s*[-*_])` repetitions; returns the pairs in order
together with the input after the last marker.  Each step consumes at least
the marker character, so fuel `l.length` suffices. -/
def hrParseReps : Nat → List Char → List (List Char × Char) × List Char
  | 0, l => ([], l)
  | fuel + 1, l =>
    let ws := l.takeWhile isJsWs
    match l.dropWhile isJsWs with
    | c :: cs =>
      if isHrMarker c then
        let (reps, tail) := hrParseReps fuel cs
        ((ws, c) :: reps, tail)
      else ([], l)
    | [] => ([], l)

/-- Splits a list at its last newline: `some (before, fromNL)` with
`fromNL` beginning with that `'\n'`. -/
def lastNLSplit : List Char → Option (List Char × List Char)
  | [] => none
  | c :: cs =>
    match lastNLSplit cs with
    | some (a, b) => some (c :: a, b)
    | none => if c = '\n' then some ([], c :: cs) else none

/-- Re-concatenate repetition pairs in front of a tail. -/
def hrFlatten : List (List Char × Char) → List Char → List Char
  | [], tail => tail
  | (ws, m) :: rs, tail => ws ++ m :: hrFlatten rs tail

/-- Backtracking search for the match end: `reps` are the repetitions kept
so far, `tail` the input after them.  Returns `(consumed, remaining)`.
Fuel `reps.length + 1` suffices since each retry drops one repetition. -/
def hrFind : Nat → List (List Char × Char) → List Char → Option (List Char × List Char)
  | 0, _, _ => none
  | fuel + 1, reps, tail =>
    if reps.length < 3 then none
    else
      let run := tail.takeWhile isJsWs
      let rest := tail.dropWhile isJsWs
      if rest.isEmpty then some (hrFlatten reps run, [])
      else
        match lastNLSplit run with
        | some (a, b) => some (hrFlatten reps a, b ++ rest)
        | none =>
          match reps.getLast? with
          | some (ws, m) => hrFind fuel reps.dropLast (ws ++ m :: tail)
          | none => none

def hrMatch (l : List Char) : Option (Char × List Char) :=
  let (reps, tail) := hrParseReps l.length l
  match hrFind (reps.length + 1) reps tail with
  | some (consumed, remaining) =>
    match consumed.getLast? with
    | some c => some (c, remaining)
    | none => none
  | none => none

/-- Pass `/\n{3,}/g → "\n\n"`. -/
def collapseMatch : List Char → Option (List Char × List Char)
  | [] => none
  | c :: rest =>
    if c = '\n' then
      let nls := rest.takeWhile (fun d => d = '\n')
      if 3 ≤ nls.length + 1 then some (['\n', '\n'], rest.dropWhile (fun d => d = '\n'))
      else none
    else none

/-- stripMarkdown (part_000 lines 30-47, part_003 lines 14-31): the fifteen
`.replace` passes applied in source order. -/
def stripMarkdownL (l : List Char) : List Char :=
  let l := replaceLines headingMatch l
  let l := replaceAll boldMatch l
  let l := replaceAll italicMatch l
  let l := replaceAll boldUnderscoreMatch l
  let l := replaceAll italicUnderscoreMatch l
  let l := replaceAll strikeMatch l
  let l := replaceAll codeMatch l
  let l := replaceAll linkMatch l
  let l := replaceAll imageMatch l
  let l := replaceAll wikilinkMatch l
  let l := replaceLines blockquoteMatch l
  let l := replaceLines ulistMatch l
  let l := replaceLines olistMatch l
  let l := replaceLines hrMatch l
  replaceAll collapseMatch l

def stripMarkdown (s : String) : String := String.mk (stripMarkdownL s.data)

/-! ## Frontmatter stripping: `/^---\n[\s\S]*?\n---\n?/` (anchored at the
start of the string, no `m` flag).  After the opening `---\n` the lazy body
ends at the first occurrence of `\n---`; a single following newline is also
consumed when present. -/

/-- Scan for the first occurrence of `\n---`; on success return the input
after it, with one further newline consumed if present. -/
def afterClose : List Char → Option (List Char)
  | '\n' :: '-' :: '-' :: '-' :: rest =>
    some (match rest with
      | '\n' :: r => r
      | r => r)
  | _ :: cs => afterClose cs
  | [] => none

def stripFrontmatterL (l : List Char) : List Char :=
  match l with
  | '-' :: '-' :: '-' :: '\n' :: rest =>
    match afterClose rest with
    | some r => r
    | none => l
  | _ => l

/-! ## getPreview (part_000 lines 365-392, part_003 lines 268-282) -/

def BINARY_EXTENSIONS : List String :=
  ["png", "jpg", "jpeg", "gif", "webp", "svg", "ico", "bmp",
   "mp3", "wav", "ogg", "flac", "m4a",
   "mp4", "webm", "mkv", "avi", "mov",
   "pdf", "zip", "tar", "gz", "7z", "rar",
   "exe", "dll", "so", "dylib",
   "woff", "woff2", "ttf", "otf", "eot"]

/-- The processing applied to successfully read content: optional
frontmatter strip, markdown strip for markdown extensions, then
`split("\n").map(trim).filter(nonempty).slice(0, previewLines)` rejoined
with newlines. -/
def processContent (cfg : Config) (ext : String) (content : List Char) : List Char :=
  let c1 := if cfg.stripFrontmatter then stripFrontmatterL content else content
  let c2 := if ext = "md" ∨ ext = "markdown" then stripMarkdownL c1 else c1
  let kept := ((splitNL c2).map jsTrim).filter (fun l => decide (0 < l.length))
  joinNL (kept.take cfg.previewLines)

/-- getPreview.  `readFn` stands for `this.app.vault.read`; `Except.error`
is a rejected read promise, caught by the `try`/`catch`.  The final
`lines.join("\n") || "[empty]"` falls back exactly when the joined string
is empty. -/
def getPreview (cfg : Config) (readFn : TFile → Except Unit String) (f : TFile) : String :=
  let ext := jsToLower f.extension
  if ext ∈ BINARY_EXTENSIONS then "[" ++ ext ++ " file]"
  else
    match readFn f with
    | Except.error _ => "[unable to read]"
    | Except.ok content =>
      let s := processContent cfg ext content.data
      if s.isEmpty then "[empty]" else String.mk s

/-! ## preprocessEntries (part_000 lines 209-219, part_003 lines 284-292)

Both versions read every valid entry and emit results indexed by input
position (the sequential `for..of` loop and the `Promise.all` over
`valid.map` produce the same sequence); in this deterministic embedding the
concurrent completion order of reads has no counterpart, and the result is
a function of the input order alone. -/

def preprocessEntries (cfg : Config) (readFn : TFile → Except Unit String)
    (entries : List Entry) : List ProcessedEntry :=
  let valid := entries.filterMap Entry.file
  valid.map (fun f =>
    let preview := getPreview cfg readFn f
    let lineCount := (splitNL preview.data).length
    { file := f, preview := preview, lineCount := lineCount,
      height := computeCardHeight cfg lineCount })

/-! ## The render pass (part_000 lines 256-293 `render`, part_003
lines 312-349 `renderView`) -/

/-- What the view currently shows: nothing yet, the empty-state
placeholder, or the virtualized card rows. -/
inductive RenderOutput where
  | initial
  | emptyState
  | cards (rows : List VirtualRow)
deriving DecidableEq

/-- The mutable view fields touched by a render pass. -/
structure ViewState where
  lastRenderHash : String
  processedEntries : List ProcessedEntry
  rows : List VirtualRow
  content : RenderOutput
deriving DecidableEq

/-- One render pass over a present data snapshot.  `clientWidth` is
`containerEl.clientWidth` (the source substitutes 800 when it is falsy). -/
def renderView (cfg : Config) (readFn : TFile → Except Unit String) (clientWidth : Nat)
    (entries : List Entry) (st : ViewState) : ViewState :=
  let hash := computeHash entries
  if hash = st.lastRenderHash then st
  else
    if entries.isEmpty then
      { st with lastRenderHash := hash, content := RenderOutput.emptyState }
    else
      let processed := preprocessEntries cfg readFn entries
      let containerWidth := if clientWidth = 0 then 800 else clientWidth
      let rows := groupIntoRows processed containerWidth
      { lastRenderHash := hash, processedEntries := processed, rows := rows,
        content := RenderOutput.cards rows }

/-! ## loadConfig (part_000 lines 178-200, part_003 lines 250-260)

The settings store can hand back anything; `SettingValue` covers the cases
the code distinguishes by `typeof`.  JS numbers are modelled as `ℚ`
(NaN and the infinities are outside this model), so the clamp
`Math.max(1, Math.min(20, lines))` is `max 1 (min 20 q)` and performs no
rounding. -/

inductive SettingValue where
  | num (q : ℚ)
  | boolean (b : Bool)
  | str (s : String)
  | absent
deriving DecidableEq

/-- The view's config fields with `previewLines` at its JS-number type. -/
structure ConfigState where
  previewLines : ℚ
  showFileName : Bool
  stripFrontmatter : Bool
  monoFont : Bool
deriving DecidableEq

def defaultConfigState : ConfigState :=
  { previewLines := 5, showFileName := true, stripFrontmatter := true, monoFont := false }

def loadPreviewLines (v : SettingValue) (cfg : ConfigState) : ConfigState :=
  match v with
  | SettingValue.num q => { cfg with previewLines := max 1 (min 20 q) }
  | _ => cfg

def loadShowFileName (v : SettingValue) (cfg : ConfigState) : ConfigState :=
  match v with
  | SettingValue.boolean b => { cfg with showFileName := b }
  | _ => cfg

def loadStripFrontmatter (v : SettingValue) (cfg : ConfigState) : ConfigState :=
  match v with
  | SettingValue.boolean b => { cfg with stripFrontmatter := b }
  | _ => cfg

def loadMonoFont (v : SettingValue) (cfg : ConfigState) : ConfigState :=
  match v with
  | SettingValue.boolean b => { cfg with monoFont := b }
  | _ => cfg

/-- The four `config.get` blocks in source order. -/
def loadConfig (get : String → SettingValue) (cfg : ConfigState) : ConfigState :=
  loadMonoFont (get "monoFont")
    (loadStripFrontmatter (get "stripFrontmatter")
      (loadShowFileName (get "showFileName")
        (loadPreviewLines (get "previewLines") cfg)))

/-! ## Concrete sample data used by witnesses -/

def entryA : Entry := ⟨some ⟨"a.md", "a", "md"⟩⟩
def entryB : Entry := ⟨some ⟨"b.md", "b", "md"⟩⟩
def entryC : Entry := ⟨some ⟨"c.md", "c", "md"⟩⟩

def filePng : TFile := ⟨"p.png", "p", "png"⟩
def fileMd : TFile := ⟨"a.md", "a", "md"⟩
def fileTxt : TFile := ⟨"c.txt", "c", "txt"⟩

def peA : ProcessedEntry := ⟨⟨"a.md", "a", "md"⟩, "a", 1, 100⟩
def peB : ProcessedEntry := ⟨⟨"b.md", "b", "md"⟩, "b", 1, 200⟩
def peC : ProcessedEntry := ⟨⟨"c.md", "c", "md"⟩, "c", 1, 150⟩

/-! ## Helper lemmas -/

theorem filterMap_file_length (entries : List Entry) :
    (entries.filterMap Entry.file).length
      = (entries.filter (fun e => e.file.isSome)).length := by
  induction entries with
  | nil => rfl
  | cons e es ih =>
    cases hf : e.file <;>
      simp [List.filterMap_cons, List.filter_cons, hf, ih]

theorem pathAt_eq (entries : List Entry) (i : Nat) :
    (((entries[i]?).bind Entry.file).map TFile.path).getD ""
      = match entries[i]? with
        | some e =>
          match e.file with
          | some f => f.path
          | none => ""
        | none => "" := by
  cases h : entries[i]? with
  | none => rfl
  | some e => cases hf : e.file <;> simp [hf]

/-- The sampled-path function as the spec words it: the path of the entry at
index `i`, or the empty string when that entry or its file reference is
absent. -/
def pathAt (entries : List Entry) (i : Nat) : String :=
  match entries[i]? with
  | some e =>
    match e.file with
    | some f => f.path
    | none => ""
  | none => ""

/-! ## Claim theorems -/

/-- Claim C2: preprocessing is a total function of its inputs (it cannot
fail), its output sequence carries exactly the non-null input files in
input order (so its length never exceeds the number of non-null entries),
and — the reads being an explicit function — the result does not depend on
any completion order. -/
theorem preprocessEntries_order (cfg : Config) (readFn : TFile → Except Unit String)
    (entries : List Entry) :
    (preprocessEntries cfg readFn entries).map ProcessedEntry.file
        = entries.filterMap Entry.file
    ∧ (preprocessEntries cfg readFn entries).length
        ≤ (entries.filter (fun e => e.file.isSome)).length := by
  constructor
  · unfold preprocessEntries
    rw [List.map_map]
    exact List.map_id _
  · unfold preprocessEntries
    rw [List.length_map, filterMap_file_length]

/-- Claim C4: the fingerprint is `""` on the empty list and otherwise
`"{count}|{pathAt 0}|{pathAt (count/2)}|{pathAt (count-1)}"`. -/
theorem computeHash_spec (entries : List Entry) :
    computeHash ([] : List Entry) = ""
    ∧ (entries ≠ [] →
        computeHash entries =
          toString entries.length ++ "|" ++ pathAt entries 0 ++ "|"
            ++ pathAt entries (entries.length / 2) ++ "|"
            ++ pathAt entries (entries.length - 1)) := by
  refine ⟨rfl, fun h => ?_⟩
  unfold computeHash
  rw [if_neg (by simpa using h)]
  unfold pathAt
  rw [pathAt_eq, pathAt_eq, pathAt_eq]

/-- Witness for C4 at a concrete three-entry list. -/
theorem computeHash_spec_witness :
    computeHash [entryA, entryB, entryC] = "3|a.md|b.md|c.md" :=
  ((computeHash_spec [entryA, entryB, entryC]).2 (by decide)).trans (by decide)

/-- Claim C5: when the fresh fingerprint equals the stored one the render
pass leaves the whole view state (stored fingerprint, processed entries,
rows, rendered content) unchanged. -/
theorem renderView_skip (cfg : Config) (readFn : TFile → Except Unit String)
    (clientWidth : Nat) (entries : List Entry) (st : ViewState)
    (h : computeHash entries = st.lastRenderHash) :
    renderView cfg readFn clientWidth entries st = st := by
  unfold renderView
  rw [if_pos h]

def stSkip : ViewState :=
  { lastRenderHash := "1|a.md|a.md|a.md", processedEntries := [], rows := [],
    content := RenderOutput.initial }

/-- Witness for C5 at a concrete state whose stored hash matches. -/
theorem renderView_skip_witness :
    renderView defaultConfig (fun _ => Except.error ()) 800 [entryA] stSkip = stSkip :=
  renderView_skip defaultConfig (fun _ => Except.error ()) 800 [entryA] stSkip (by decide)

/-- Claim C6: the card height is
`(showFileName ? 39 : 0) + 24 + min(lineCount, previewLines) * 20 + 2`, and
at `lineCount = 0` under the default config it is
`HEADER_HEIGHT + PREVIEW_PADDING + CARD_BORDER`. -/
theorem computeCardHeight_formula (cfg : Config) (lineCount : Nat) :
    computeCardHeight cfg lineCount
      = (if cfg.showFileName then 39 else 0) + 24
          + min lineCount cfg.previewLines * 20 + 2
    ∧ computeCardHeight defaultConfig 0
        = HEADER_HEIGHT + PREVIEW_PADDING + CARD_BORDER := by
  constructor
  · simp only [computeCardHeight, HEADER_HEIGHT, PREVIEW_PADDING, LINE_HEIGHT, CARD_BORDER]
    ring
  · decide

/-- Claim C7 (code bug): on the repo's own test input the image syntax is
NOT removed entirely — the link pass runs first and rewrites
`![alt text](image.png)` to `!alt text`, contradicting the unit test
`expect(stripMarkdown("![alt text](image.png)")).toBe("")`. -/
theorem stripMarkdown_image_eval :
    stripMarkdown "![alt text](image.png)" = "!alt text" := by decide

/-! ## C9: the settings boundary -/

theorem loadShowFileName_previewLines (v : SettingValue) (cfg : ConfigState) :
    (loadShowFileName v cfg).previewLines = cfg.previewLines := by
  cases v <;> rfl

theorem loadStripFrontmatter_previewLines (v : SettingValue) (cfg : ConfigState) :
    (loadStripFrontmatter v cfg).previewLines = cfg.previewLines := by
  cases v <;> rfl

theorem loadMonoFont_previewLines (v : SettingValue) (cfg : ConfigState) :
    (loadMonoFont v cfg).previewLines = cfg.previewLines := by
  cases v <;> rfl

theorem loadPreviewLines_showFileName (v : SettingValue) (cfg : ConfigState) :
    (loadPreviewLines v cfg).showFileName = cfg.showFileName := by
  cases v <;> rfl

theorem loadStripFrontmatter_showFileName (v : SettingValue) (cfg : ConfigState) :
    (loadStripFrontmatter v cfg).showFileName = cfg.showFileName := by
  cases v <;> rfl

theorem loadMonoFont_showFileName (v : SettingValue) (cfg : ConfigState) :
    (loadMonoFont v cfg).showFileName = cfg.showFileName := by
  cases v <;> rfl

theorem loadPreviewLines_stripFrontmatter (v : SettingValue) (cfg : ConfigState) :
    (loadPreviewLines v cfg).stripFrontmatter = cfg.stripFrontmatter := by
  cases v <;> rfl

theorem loadShowFileName_stripFrontmatter (v : SettingValue) (cfg : ConfigState) :
    (loadShowFileName v cfg).stripFrontmatter = cfg.stripFrontmatter := by
  cases v <;> rfl

theorem loadMonoFont_stripFrontmatter (v : SettingValue) (cfg : ConfigState) :
    (loadMonoFont v cfg).stripFrontmatter = cfg.stripFrontmatter := by
  cases v <;> rfl

theorem loadPreviewLines_monoFont (v : SettingValue) (cfg : ConfigState) :
    (loadPreviewLines v cfg).monoFont = cfg.monoFont := by
  cases v <;> rfl

theorem loadShowFileName_monoFont (v : SettingValue) (cfg : ConfigState) :
    (loadShowFileName v cfg).monoFont = cfg.monoFont := by
  cases v <;> rfl

theorem loadStripFrontmatter_monoFont (v : SettingValue) (cfg : ConfigState) :
    (loadStripFrontmatter v cfg).monoFont = cfg.monoFont := by
  cases v <;> rfl

theorem loadPreviewLines_num (q : ℚ) (cfg : ConfigState) :
    (loadPreviewLines (SettingValue.num q) cfg).previewLines = max 1 (min 20 q) := rfl

theorem loadPreviewLines_other (v : SettingValue) (cfg : ConfigState)
    (h : ∀ q, v ≠ SettingValue.num q) : loadPreviewLines v cfg = cfg := by
  cases v with
  | num q => exact absurd rfl (h q)
  | boolean b => rfl
  | str s => rfl
  | absent => rfl

theorem loadShowFileName_boolean (b : Bool) (cfg : ConfigState) :
    (loadShowFileName (SettingValue.boolean b) cfg).showFileName = b := rfl

theorem loadShowFileName_other (v : SettingValue) (cfg : ConfigState)
    (h : ∀ b, v ≠ SettingValue.boolean b) : loadShowFileName v cfg = cfg := by
  cases v with
  | num q => rfl
  | boolean b => exact absurd rfl (h b)
  | str s => rfl
  | absent => rfl

theorem loadStripFrontmatter_boolean (b : Bool) (cfg : ConfigState) :
    (loadStripFrontmatter (SettingValue.boolean b) cfg).stripFrontmatter = b := rfl

theorem loadStripFrontmatter_other (v : SettingValue) (cfg : ConfigState)
    (h : ∀ b, v ≠ SettingValue.boolean b) : loadStripFrontmatter v cfg = cfg := by
  cases v with
  | num q => rfl
  | boolean b => exact absurd rfl (h b)
  | str s => rfl
  | absent => rfl

theorem loadMonoFont_boolean (b : Bool) (cfg : ConfigState) :
    (loadMonoFont (SettingValue.boolean b) cfg).monoFont = b := rfl

theorem loadMonoFont_other (v : SettingValue) (cfg : ConfigState)
    (h : ∀ b, v ≠ SettingValue.boolean b) : loadMonoFont v cfg = cfg := by
  cases v with
  | num q => rfl
  | boolean b => exact absurd rfl (h b)
  | str s => rfl
  | absent => rfl

/-- A store answering `3.5` for `previewLines`. -/
def storeHalf : String → SettingValue :=
  fun k => if k = "previewLines" then SettingValue.num ((7 : ℚ) / 2) else SettingValue.absent

/-- Counterexample for C9 as stated: the clamp performs no rounding, so a
stored `previewLines` of `3.5` is kept as the non-integer `7/2` — it does
not lie in the INTEGER range [1, 20]. -/
theorem loadConfig_nonInteger :
    (loadConfig storeHalf defaultConfigState).previewLines = (7 : ℚ) / 2
    ∧ ∀ n : ℤ, (n : ℚ) ≠ (loadConfig storeHalf defaultConfigState).previewLines := by
  have hv : storeHalf "previewLines" = SettingValue.num ((7 : ℚ) / 2) := by
    unfold storeHalf
    rw [if_pos rfl]
  have h : (loadConfig storeHalf defaultConfigState).previewLines = (7 : ℚ) / 2 := by
    unfold loadConfig
    rw [loadMonoFont_previewLines, loadStripFrontmatter_previewLines,
      loadShowFileName_previewLines, hv, loadPreviewLines_num]
    rw [min_eq_right (by norm_num), max_eq_right (by norm_num)]
  refine ⟨h, fun n hn => ?_⟩
  rw [h] at hn
  have h2 : (2 : ℚ) * (n : ℚ) = 7 := by
    rw [hn]
    ring
  have h3 : (2 * n : ℤ) = 7 := by exact_mod_cast h2
  omega

/-- Claim C9 amended: loading is total (never throws), a wrong-typed or
absent stored value leaves each field at its prior value, a stored number
`q` yields exactly the unrounded clamp `max 1 (min 20 q)`, and — provided
the prior value lies in [1, 20], as the field initialiser 5 does —
`previewLines` stays in the rational range [1, 20] (integrality is NOT
guaranteed for non-integer stored numbers). -/
theorem loadConfig_safe (get : String → SettingValue) (cfg : ConfigState)
    (hlo : 1 ≤ cfg.previewLines) (hhi : cfg.previewLines ≤ 20) :
    (1 ≤ (loadConfig get cfg).previewLines ∧ (loadConfig get cfg).previewLines ≤ 20)
    ∧ (∀ q, get "previewLines" = SettingValue.num q →
        (loadConfig get cfg).previewLines = max 1 (min 20 q))
    ∧ ((∀ q, get "previewLines" ≠ SettingValue.num q) →
        (loadConfig get cfg).previewLines = cfg.previewLines)
    ∧ (∀ b, get "showFileName" = SettingValue.boolean b →
        (loadConfig get cfg).showFileName = b)
    ∧ ((∀ b, get "showFileName" ≠ SettingValue.boolean b) →
        (loadConfig get cfg).showFileName = cfg.showFileName)
    ∧ (∀ b, get "stripFrontmatter" = SettingValue.boolean b →
        (loadConfig get cfg).stripFrontmatter = b)
    ∧ ((∀ b, get "stripFrontmatter" ≠ SettingValue.boolean b) →
        (loadConfig get cfg).stripFrontmatter = cfg.stripFrontmatter)
    ∧ (∀ b, get "monoFont" = SettingValue.boolean b →
        (loadConfig get cfg).monoFont = b)
    ∧ ((∀ b, get "monoFont" ≠ SettingValue.boolean b) →
        (loadConfig get cfg).monoFont = cfg.monoFont) := by
  have hpl : (loadConfig get cfg).previewLines
      = (loadPreviewLines (get "previewLines") cfg).previewLines := by
    unfold loadConfig
    rw [loadMonoFont_previewLines, loadStripFrontmatter_previewLines,
      loadShowFileName_previewLines]
  have hsf : (loadConfig get cfg).showFileName
      = (loadShowFileName (get "showFileName")
          (loadPreviewLines (get "previewLines") cfg)).showFileName := by
    unfold loadConfig
    rw [loadMonoFont_showFileName, loadStripFrontmatter_showFileName]
  have hfm : (loadConfig get cfg).stripFrontmatter
      = (loadStripFrontmatter (get "stripFrontmatter")
          (loadShowFileName (get "showFileName")
            (loadPreviewLines (get "previewLines") cfg))).stripFrontmatter := by
    unfold loadConfig
    rw [loadMonoFont_stripFrontmatter]
  refine ⟨?_, ?_, ?_, ?_, ?_, ?_, ?_, ?_, ?_⟩
  · rw [hpl]
    cases hv : get "previewLines" with
    | num q =>
      rw [loadPreviewLines_num]
      exact ⟨le_max_left 1 _, max_le (by norm_num) (le_trans (min_le_left 20 q) le_rfl)⟩
    | boolean b => exact ⟨hlo, hhi⟩
    | str s => exact ⟨hlo, hhi⟩
    | absent => exact ⟨hlo, hhi⟩
  · intro q hq
    rw [hpl, hq, loadPreviewLines_num]
  · intro hq
    rw [hpl, loadPreviewLines_other (get "previewLines") cfg hq]
  · intro b hb
    rw [hsf, hb, loadShowFileName_boolean]
  · intro hb
    rw [hsf, loadShowFileName_other (get "showFileName") _ hb,
      loadPreviewLines_showFileName]
  · intro b hb
    rw [hfm, hb, loadStripFrontmatter_boolean]
  · intro hb
    rw [hfm, loadStripFrontmatter_other (get "stripFrontmatter") _ hb,
      loadShowFileName_stripFrontmatter, loadPreviewLines_stripFrontmatter]
  · intro b hb
    unfold loadConfig
    rw [hb, loadMonoFont_boolean]
  · intro hb
    unfold loadConfig
    rw [loadMonoFont_other (get "monoFont") _ hb, loadStripFrontmatter_monoFont,
      loadShowFileName_monoFont, loadPreviewLines_monoFont]

/-- A store answering the out-of-range number 100 for `previewLines` and a
wrongly-typed string elsewhere. -/
def storeBig : String → SettingValue :=
  fun k => if k = "previewLines" then SettingValue.num 100 else SettingValue.str "x"

/-- Witness for the amended C9 at a concrete store: 100 is clamped into
range and the wrongly-typed `showFileName` keeps its prior value. -/
theorem loadConfig_safe_witness :
    (1 ≤ (loadConfig storeBig defaultConfigState).previewLines
      ∧ (loadConfig storeBig defaultConfigState).previewLines ≤ 20)
    ∧ (loadConfig storeBig defaultConfigState).showFileName
        = defaultConfigState.showFileName :=
  ⟨(loadConfig_safe storeBig defaultConfigState (by norm_num [defaultConfigState])
      (by norm_num [defaultConfigState])).1,
   (loadConfig_safe storeBig defaultConfigState (by norm_num [defaultConfigState])
      (by norm_num [defaultConfigState])).2.2.2.2.1 (fun b => by simp [storeBig])⟩

/-! ## C3: getPreview sentinel behaviour -/

/-- Claim C3: preview extraction is a total function (no failure escapes
it); a binary extension returns the `"[<ext> file]"` sentinel and the
result is then independent of the read interface (no read is consulted); a
failed read yields `"[unable to read]"`; content whose processing reduces
to the empty string yields `"[empty]"`. -/
theorem getPreview_sentinels (cfg : Config) (readFn : TFile → Except Unit String)
    (f : TFile) :
    (jsToLower f.extension ∈ BINARY_EXTENSIONS →
      getPreview cfg readFn f = "[" ++ jsToLower f.extension ++ " file]"
      ∧ ∀ readFn2 : TFile → Except Unit String,
          getPreview cfg readFn2 f = getPreview cfg readFn f)
    ∧ (jsToLower f.extension ∉ BINARY_EXTENSIONS →
      (∀ e, readFn f = Except.error e → getPreview cfg readFn f = "[unable to read]")
      ∧ (∀ content, readFn f = Except.ok content →
          processContent cfg (jsToLower f.extension) content.data = [] →
          getPreview cfg readFn f = "[empty]")) := by
  refine ⟨fun hb => ⟨?_, fun readFn2 => ?_⟩,
    fun hnb => ⟨fun e he => ?_, fun content hc hp => ?_⟩⟩
  · unfold getPreview
    rw [if_pos hb]
  · unfold getPreview
    rw [if_pos hb, if_pos hb]
  · unfold getPreview
    rw [if_neg hnb, he]
  · unfold getPreview
    rw [if_neg hnb, hc]
    simp only [hp, List.isEmpty_nil, if_pos]

/-- Witness for C3: a png file skips the read, a failing read on a markdown
file gives the read sentinel, whitespace-only text gives the empty
sentinel. -/
theorem getPreview_sentinels_witness :
    getPreview defaultConfig (fun _ => Except.ok "hello") filePng = "[png file]"
    ∧ getPreview defaultConfig (fun _ => Except.error ()) fileMd = "[unable to read]"
    ∧ getPreview defaultConfig (fun _ => Except.ok "   ") fileTxt = "[empty]" :=
  ⟨(((getPreview_sentinels defaultConfig (fun _ => Except.ok "hello") filePng).1
      (by decide)).1).trans (by decide),
   ((getPreview_sentinels defaultConfig (fun _ => Except.error ()) fileMd).2
      (by decide)).1 () rfl,
   ((getPreview_sentinels defaultConfig (fun _ => Except.ok "   ") fileTxt).2
      (by decide)).2 "   " rfl (by decide)⟩

/-! ## C1: the row packer partitions its input -/

theorem foldl_max_mem : ∀ (xs : List Nat) (x : Nat), xs.foldl max x ∈ x :: xs := by
  intro xs
  induction xs with
  | nil =>
    intro x
    simp
  | cons y ys ih =>
    intro x
    rw [List.foldl_cons]
    rcases List.mem_cons.mp (ih (max x y)) with h1 | h1
    · rcases max_choice x y with hm | hm <;> rw [h1, hm] <;> simp
    · simp [h1]

theorem foldl_max_le : ∀ (xs : List Nat) (x a : Nat), a ∈ x :: xs → a ≤ xs.foldl max x := by
  intro xs
  induction xs with
  | nil =>
    intro x a ha
    simp at ha
    simp [ha]
  | cons y ys ih =>
    intro x a ha
    rw [List.foldl_cons]
    rcases List.mem_cons.mp ha with h1 | h1
    · subst h1
      exact le_trans (le_max_left a y) (ih (max a y) _ (List.mem_cons_self _ _))
    · rcases List.mem_cons.mp h1 with h2 | h2
      · subst h2
        exact le_trans (le_max_right x a) (ih (max x a) _ (List.mem_cons_self _ _))
      · exact ih _ _ (List.mem_cons.mpr (Or.inr h2))

theorem groupRowsGo_join (p : Nat) :
    ∀ (fuel idx : Nat) (l : List ProcessedEntry), l.length ≤ fuel →
      ((groupRowsGo p fuel idx l).map VirtualRow.entries).flatten = l := by
  intro fuel
  induction fuel with
  | zero =>
    intro idx l hl
    cases l with
    | nil => rfl
    | cons e es => simp at hl
  | succ n ih =>
    intro idx l hl
    cases l with
    | nil => rfl
    | cons e es =>
      simp only [groupRowsGo, List.map_cons, List.flatten_cons]
      rw [ih (idx + 1) (es.drop (p - 1))
        (by
          have h1 : es.length ≤ n := by simpa using hl
          calc (es.drop (p - 1)).length ≤ es.length := by
                rw [List.length_drop]; omega
            _ ≤ n := h1)]
      simp [List.take_append_drop]

theorem groupRowsGo_mem (p : Nat) :
    ∀ (fuel idx : Nat) (l : List ProcessedEntry) (r : VirtualRow),
      r ∈ groupRowsGo p fuel idx l →
      r.entries ≠ [] ∧ r.height ∈ r.entries.map ProcessedEntry.height
        ∧ ∀ e ∈ r.entries, e.height ≤ r.height := by
  intro fuel
  induction fuel with
  | zero =>
    intro idx l r hr
    cases l <;> simp [groupRowsGo] at hr
  | succ n ih =>
    intro idx l r hr
    cases l with
    | nil => simp [groupRowsGo] at hr
    | cons e es =>
      simp only [groupRowsGo, List.mem_cons] at hr
      rcases hr with hr | hr
      · subst hr
        refine ⟨by simp, ?_, ?_⟩
        · simpa [jsMaxNat] using
            foldl_max_mem ((es.take (p - 1)).map ProcessedEntry.height) e.height
        · intro x hx
          have hx2 : x.height ∈ ProcessedEntry.height e
              :: (es.take (p - 1)).map ProcessedEntry.height := by
            simpa using List.mem_map_of_mem ProcessedEntry.height hx
          simpa [jsMaxNat] using
            foldl_max_le ((es.take (p - 1)).map ProcessedEntry.height) e.height x.height hx2
      · exact ih (idx + 1) (es.drop (p - 1)) r hr

/-- Claim C1: the rows partition the entries — concatenating `row.entries`
in row order reproduces the input (so the entry counts sum to the input
length, and empty input gives no rows) — and every row is nonempty with
height equal to the maximum entry height in that row. -/
theorem groupIntoRows_partition (entries : List ProcessedEntry) (containerWidth : Nat) :
    ((groupIntoRows entries containerWidth).map VirtualRow.entries).flatten = entries
    ∧ ((groupIntoRows entries containerWidth).map (fun r => r.entries.length)).sum
        = entries.length
    ∧ groupIntoRows ([] : List ProcessedEntry) containerWidth = []
    ∧ ∀ r ∈ groupIntoRows entries containerWidth,
        r.entries ≠ [] ∧ r.height ∈ r.entries.map ProcessedEntry.height
          ∧ ∀ e ∈ r.entries, e.height ≤ r.height := by
  have hjoin : ((groupIntoRows entries containerWidth).map VirtualRow.entries).flatten
      = entries :=
    groupRowsGo_join _ entries.length 0 entries le_rfl
  refine ⟨hjoin, ?_, rfl, fun r hr => groupRowsGo_mem _ entries.length 0 entries r hr⟩
  conv_rhs => rw [← hjoin, List.length_flatten]
  rw [List.map_map]
  rfl

/-- Witness for C1: with width 2000 the three sample entries form one row
whose height 200 is among the entry heights. -/
theorem groupIntoRows_partition_witness :
    ({ index := 0, entries := [peA, peB, peC], height := 200 } : VirtualRow).height
      ∈ [peA, peB, peC].map ProcessedEntry.height :=
  ((groupIntoRows_partition [peA, peB, peC] 2000).2.2.2
    { index := 0, entries := [peA, peB, peC], height := 200 } (by decide)).2.1

/-! ## C8: idempotence fails; the blank-line collapse is stable -/

/-- Decides whether a character list contains three consecutive newlines
(the trigger of the `\n{3,}` collapse). -/
def hasTriple : List Char → Bool
  | [] => false
  | [_] => false
  | [_, _] => false
  | a :: b :: c :: rest =>
    (a = '\n' && b = '\n' && c = '\n') || hasTriple (b :: c :: rest)

/-- Length of the leading newline run. -/
def leadNL : List Char → Nat
  | [] => 0
  | c :: cs => if c = '\n' then leadNL cs + 1 else 0

theorem hasTriple_cons (c : Char) (l : List Char) (hc : c ≠ '\n') :
    hasTriple (c :: l) = hasTriple l := by
  match l with
  | [] => rfl
  | [b] => rfl
  | b :: d :: rest => simp [hasTriple, hc]

theorem leadNL_cons_nl (cs : List Char) : leadNL ('\n' :: cs) = leadNL cs + 1 := by
  simp [leadNL]

theorem leadNL_cons_not (c : Char) (cs : List Char) (hc : c ≠ '\n') :
    leadNL (c :: cs) = 0 := by
  simp [leadNL, hc]

theorem hasTriple_one_nl (o : List Char) (h1 : hasTriple o = false) (h2 : leadNL o ≤ 1) :
    hasTriple ('\n' :: o) = false := by
  match o with
  | [] => rfl
  | [b] => rfl
  | b :: d :: rest =>
    by_cases hb : b = '\n'
    · subst hb
      have hd : ¬ d = '\n' := by
        intro hd
        subst hd
        rw [leadNL_cons_nl, leadNL_cons_nl] at h2
        omega
      simp [hasTriple, hd, h1]
    · simp [hasTriple, hb, h1]

theorem hasTriple_two_nl (o : List Char) (h1 : hasTriple o = false) (h2 : leadNL o = 0) :
    hasTriple ('\n' :: '\n' :: o) = false := by
  match o with
  | [] => rfl
  | b :: os =>
    have hb : b ≠ '\n' := by
      intro hb
      rw [hb, leadNL_cons_nl] at h2
      omega
    have hone : hasTriple ('\n' :: b :: os) = false :=
      hasTriple_one_nl (b :: os) h1 (by rw [leadNL_cons_not b os hb]; omega)
    have hstep : hasTriple ('\n' :: '\n' :: b :: os)
        = ((decide ('\n' = '\n') && decide ('\n' = '\n') && decide (b = '\n'))
            || hasTriple ('\n' :: b :: os)) := rfl
    rw [hstep, hone]
    simp [hb]

theorem dropWhile_length_le (p : Char → Bool) (l : List Char) :
    (l.dropWhile p).length ≤ l.length := by
  induction l with
  | nil => simp
  | cons c cs ih =>
    rw [List.dropWhile_cons]
    by_cases hc : p c = true
    · rw [if_pos hc]
      exact le_trans ih (Nat.le_succ _)
    · rw [if_neg hc]

theorem leadNL_eq_takeWhile (l : List Char) :
    leadNL l = (l.takeWhile (fun d => d = '\n')).length := by
  induction l with
  | nil => rfl
  | cons c cs ih =>
    by_cases hc : c = '\n'
    · simp [leadNL, List.takeWhile_cons, hc, ih]
    · simp [leadNL, List.takeWhile_cons, hc]

theorem leadNL_dropWhile_nl (l : List Char) :
    leadNL (l.dropWhile (fun d => d = '\n')) = 0 := by
  induction l with
  | nil => rfl
  | cons c cs ih =>
    by_cases hc : c = '\n'
    · simpa [List.dropWhile_cons, hc] using ih
    · simp [List.dropWhile_cons, hc, leadNL]

theorem collapse_no_triple :
    ∀ (fuel : Nat) (l : List Char), l.length ≤ fuel →
      hasTriple (scanInline collapseMatch fuel l) = false
      ∧ leadNL (scanInline collapseMatch fuel l) ≤ min 2 (leadNL l) := by
  intro fuel
  induction fuel with
  | zero =>
    intro l hl
    have hnil : l = [] := List.eq_nil_of_length_eq_zero (Nat.le_zero.mp hl)
    subst hnil
    exact ⟨rfl, by simp [scanInline, leadNL]⟩
  | succ n ih =>
    intro l hl
    cases l with
    | nil => exact ⟨rfl, by simp [scanInline, leadNL]⟩
    | cons c cs =>
      have hcs : cs.length ≤ n := by simpa using hl
      by_cases hc : c = '\n'
      · subst hc
        by_cases hbig : 3 ≤ (cs.takeWhile (fun d => d = '\n')).length + 1
        · have hm : collapseMatch ('\n' :: cs)
              = some (['\n', '\n'], cs.dropWhile (fun d => d = '\n')) := by
            simp [collapseMatch, hbig]
          have hrest : (cs.dropWhile (fun d => d = '\n')).length ≤ n :=
            le_trans (dropWhile_length_le _ cs) hcs
          obtain ⟨h1, h2⟩ := ih (cs.dropWhile (fun d => d = '\n')) hrest
          have hlead0 : leadNL (scanInline collapseMatch n
              (cs.dropWhile (fun d => d = '\n'))) = 0 := by
            have := leadNL_dropWhile_nl cs
            omega
          constructor
          · simp only [scanInline, hm]
            exact hasTriple_two_nl _ h1 hlead0
          · simp only [scanInline, hm, List.cons_append, List.nil_append]
            rw [leadNL_cons_nl, leadNL_cons_nl, hlead0, leadNL_cons_nl]
            have hcs2 : 2 ≤ leadNL cs := by
              rw [leadNL_eq_takeWhile]
              omega
            omega
        · have hm : collapseMatch ('\n' :: cs) = none := by
            simp [collapseMatch, hbig]
          obtain ⟨h1, h2⟩ := ih cs hcs
          have hlead1 : leadNL cs ≤ 1 := by
            rw [leadNL_eq_takeWhile]
            omega
          constructor
          · simp only [scanInline, hm]
            exact hasTriple_one_nl _ h1 (by omega)
          · simp only [scanInline, hm]
            rw [leadNL_cons_nl, leadNL_cons_nl]
            omega
      · have hm : collapseMatch (c :: cs) = none := by
          simp [collapseMatch, hc]
        obtain ⟨h1, h2⟩ := ih cs hcs
        constructor
        · simp only [scanInline, hm]
          rw [hasTriple_cons c _ hc]
          exact h1
        · simp only [scanInline, hm]
          rw [leadNL_cons_not c _ hc, leadNL_cons_not c cs hc]
          omega

/-- Counterexample for C8 as stated: one pass turns `"> # x"` into `"# x"`
(the blockquote marker is stripped only after the heading pass has run), and
a second pass then strips the heading, so `normalize` is not idempotent. -/
theorem stripMarkdown_not_idempotent :
    stripMarkdown (stripMarkdown "> # x") ≠ stripMarkdown "> # x" := by decide

/-- Claim C8 amended: `normalize ∘ normalize = normalize` fails in general
(see the counterexample), but the part of the claim about the blank-line
collapse holds: it is stable after one pass, i.e. the output of
`stripMarkdown` never contains three consecutive newlines, so re-running
the collapse can change nothing. -/
theorem stripMarkdown_collapse_stable (s : String) :
    hasTriple (stripMarkdown s).data = false := by
  simp only [stripMarkdown, stripMarkdownL, replaceAll]
  exact (collapse_no_triple _ _ le_rfl).1

/-! ## C10: every preview is nonempty and at most previewLines lines -/

theorem splitNL_ne_nil (l : List Char) : splitNL l ≠ [] := by
  cases l with
  | nil => simp [splitNL]
  | cons c cs =>
    unfold splitNL
    by_cases hc : c = '\n'
    · simp [hc]
    · rw [if_neg hc]
      cases splitNL cs <;> simp

theorem splitNL_no_nl_mem (l : List Char) : ∀ p ∈ splitNL l, '\n' ∉ p := by
  induction l with
  | nil =>
    intro p hp
    simp only [splitNL, List.mem_singleton] at hp
    simp [hp]
  | cons c cs ih =>
    intro p hp
    unfold splitNL at hp
    by_cases hc : c = '\n'
    · rw [if_pos hc] at hp
      rcases List.mem_cons.mp hp with h1 | h1
      · simp [h1]
      · exact ih p h1
    · rw [if_neg hc] at hp
      cases hsp : splitNL cs with
      | nil => exact absurd hsp (splitNL_ne_nil cs)
      | cons q qs =>
        rw [hsp] at hp
        rcases List.mem_cons.mp hp with h1 | h1
        · subst h1
          intro hmem
          rcases List.mem_cons.mp hmem with h2 | h2
          · exact hc h2.symm
          · exact ih q (hsp ▸ List.mem_cons_self q qs) h2
        · exact ih p (hsp ▸ List.mem_cons.mpr (Or.inr h1))

theorem splitNL_of_no_nl (l : List Char) (h : '\n' ∉ l) : splitNL l = [l] := by
  induction l with
  | nil => rfl
  | cons c cs ih =>
    have hc : ¬ c = '\n' := fun hceq => h (by rw [hceq]; exact List.mem_cons_self _ _)
    unfold splitNL
    rw [if_neg hc, ih (fun hm => h (List.mem_cons.mpr (Or.inr hm)))]

theorem splitNL_append_nl (p rest : List Char) (h : '\n' ∉ p) :
    splitNL (p ++ '\n' :: rest) = p :: splitNL rest := by
  induction p with
  | nil => simp [splitNL]
  | cons c cp ih =>
    have hc : ¬ c = '\n' := fun hceq => h (by rw [hceq]; exact List.mem_cons_self _ _)
    have ih2 := ih (fun hm => h (List.mem_cons.mpr (Or.inr hm)))
    simp only [List.cons_append]
    conv_lhs => unfold splitNL
    rw [if_neg hc, ih2]

theorem splitNL_joinNL :
    ∀ parts : List (List Char), parts ≠ [] → (∀ p ∈ parts, '\n' ∉ p) →
      splitNL (joinNL parts) = parts := by
  intro parts
  induction parts with
  | nil =>
    intro h _
    exact absurd rfl h
  | cons p ps ih =>
    intro _ hall
    cases ps with
    | nil => exact splitNL_of_no_nl p (hall p (List.mem_cons_self _ _))
    | cons q qs =>
      show splitNL (p ++ '\n' :: joinNL (q :: qs)) = p :: q :: qs
      rw [splitNL_append_nl p _ (hall p (List.mem_cons_self _ _))]
      rw [ih (by simp) (fun r hr => hall r (List.mem_cons.mpr (Or.inr hr)))]

theorem joinNL_ne_nil :
    ∀ parts : List (List Char), parts ≠ [] → (∀ p ∈ parts, p ≠ []) →
      joinNL parts ≠ [] := by
  intro parts hne hall
  cases parts with
  | nil => exact absurd rfl hne
  | cons p ps =>
    cases ps with
    | nil => exact hall p (List.mem_cons_self _ _)
    | cons q qs =>
      show p ++ '\n' :: joinNL (q :: qs) ≠ []
      simp

theorem mem_of_mem_jsTrim (a : Char) (l : List Char) (h : a ∈ jsTrim l) : a ∈ l := by
  unfold jsTrim at h
  rw [List.mem_reverse] at h
  have h1 : a ∈ (l.dropWhile isJsWs).reverse :=
    List.Sublist.subset (List.dropWhile_sublist _) h
  rw [List.mem_reverse] at h1
  exact List.Sublist.subset (List.dropWhile_sublist _) h1

theorem binary_sentinel_ok :
    ∀ s ∈ BINARY_EXTENSIONS,
      ("[" ++ s ++ " file]").data ≠ [] ∧ '\n' ∉ ("[" ++ s ++ " file]").data := by
  decide

/-- Equation for `getPreview` with its lets unfolded. -/
theorem getPreview_eq (cfg : Config) (readFn : TFile → Except Unit String) (f : TFile) :
    getPreview cfg readFn f =
      if jsToLower f.extension ∈ BINARY_EXTENSIONS then
        "[" ++ jsToLower f.extension ++ " file]"
      else
        match readFn f with
        | Except.error _ => "[unable to read]"
        | Except.ok content =>
          if (processContent cfg (jsToLower f.extension) content.data).isEmpty then "[empty]"
          else String.mk (processContent cfg (jsToLower f.extension) content.data) := rfl

/-- The processed content is a join of at most `previewLines` nonempty,
newline-free line fragments. -/
theorem processContent_parts (cfg : Config) (ext : String) (content : List Char) :
    ∃ parts : List (List Char),
      processContent cfg ext content = joinNL parts
      ∧ parts.length ≤ cfg.previewLines
      ∧ (∀ p ∈ parts, p ≠ [] ∧ '\n' ∉ p)
      ∧ (processContent cfg ext content ≠ [] → parts ≠ []) := by
  obtain ⟨c2, hc2⟩ : ∃ c2, processContent cfg ext content
      = joinNL ((((splitNL c2).map jsTrim).filter
          (fun l => decide (0 < l.length))).take cfg.previewLines) := ⟨_, rfl⟩
  refine ⟨_, hc2, List.length_take_le _ _, ?_, ?_⟩
  · intro p hp
    have hp2 := List.mem_of_mem_take hp
    obtain ⟨hpm, hplen⟩ := List.mem_filter.mp hp2
    obtain ⟨q, hq, rfl⟩ := List.mem_map.mp hpm
    constructor
    · have : 0 < (jsTrim q).length := of_decide_eq_true hplen
      exact List.ne_nil_of_length_pos this
    · intro hmem
      exact splitNL_no_nl_mem c2 q hq (mem_of_mem_jsTrim _ _ hmem)
  · intro hne hparts
    rw [hc2, hparts] at hne
    exact hne rfl

/-- Every preview decomposes as a join of between 1 and `previewLines`
nonempty newline-free fragments. -/
theorem getPreview_parts (cfg : Config) (readFn : TFile → Except Unit String) (f : TFile)
    (h : 1 ≤ cfg.previewLines) :
    ∃ parts : List (List Char),
      (getPreview cfg readFn f).data = joinNL parts
      ∧ parts ≠ [] ∧ parts.length ≤ cfg.previewLines
      ∧ ∀ p ∈ parts, p ≠ [] ∧ '\n' ∉ p := by
  rw [getPreview_eq]
  by_cases hb : jsToLower f.extension ∈ BINARY_EXTENSIONS
  · rw [if_pos hb]
    refine ⟨[("[" ++ jsToLower f.extension ++ " file]").data], rfl, by simp,
      by simpa using h, ?_⟩
    intro p hp
    rw [List.mem_singleton] at hp
    subst hp
    exact binary_sentinel_ok _ hb
  · rw [if_neg hb]
    cases hr : readFn f with
    | error e =>
      exact ⟨["[unable to read]".data], rfl, by simp, by simpa using h, by decide⟩
    | ok content =>
      show ∃ parts : List (List Char),
        (if (processContent cfg (jsToLower f.extension) content.data).isEmpty
            then ("[empty]" : String)
            else String.mk (processContent cfg (jsToLower f.extension) content.data)).data
          = joinNL parts
        ∧ parts ≠ [] ∧ parts.length ≤ cfg.previewLines
        ∧ ∀ p ∈ parts, p ≠ [] ∧ '\n' ∉ p
      by_cases hemp : processContent cfg (jsToLower f.extension) content.data = []
      · rw [if_pos (by rw [hemp]; rfl)]
        exact ⟨["[empty]".data], rfl, by simp, by simpa using h, by decide⟩
      · rw [if_neg (by simpa [List.isEmpty_iff] using hemp)]
        obtain ⟨parts, hp, hlen, hprops, hne⟩ :=
          processContent_parts cfg (jsToLower f.extension) content.data
        exact ⟨parts, hp, hne hemp, hlen, hprops⟩

/-- Claim C10: with `previewLines ≥ 1` every preview string is nonempty and
splits on newline into between 1 and `previewLines` lines; consequently
every ProcessedEntry built by preprocessing has `lineCount ≥ 1`, so the
`lineCount = 0` case of the height formula is unreachable through the
pipeline. -/
theorem getPreview_bounds (cfg : Config) (readFn : TFile → Except Unit String)
    (f : TFile) (entries : List Entry) (h : 1 ≤ cfg.previewLines) :
    getPreview cfg readFn f ≠ ""
    ∧ 1 ≤ (splitNL (getPreview cfg readFn f).data).length
    ∧ (splitNL (getPreview cfg readFn f).data).length ≤ cfg.previewLines
    ∧ ∀ pe ∈ preprocessEntries cfg readFn entries, 1 ≤ pe.lineCount := by
  obtain ⟨parts, hdata, hne, hlen, hprops⟩ := getPreview_parts cfg readFn f h
  have hsplit : splitNL (getPreview cfg readFn f).data = parts := by
    rw [hdata]
    exact splitNL_joinNL parts hne (fun p hp => (hprops p hp).2)
  refine ⟨?_, ?_, ?_, ?_⟩
  · intro hempty
    have hd : (getPreview cfg readFn f).data = [] := by rw [hempty]
    rw [hdata] at hd
    exact joinNL_ne_nil parts hne (fun p hp => (hprops p hp).1) hd
  · rw [hsplit]
    exact List.length_pos.mpr hne
  · rw [hsplit]
    exact hlen
  · intro pe hpe
    unfold preprocessEntries at hpe
    obtain ⟨fx, _, rfl⟩ := List.mem_map.mp hpe
    exact List.length_pos.mpr (splitNL_ne_nil (getPreview cfg readFn fx).data)

/-- Witness for C10 at a concrete markdown file with a two-line read. -/
theorem getPreview_bounds_witness :
    getPreview defaultConfig (fun _ => Except.ok "one\ntwo") fileMd ≠ ""
    ∧ 1 ≤ (splitNL (getPreview defaultConfig
        (fun _ => Except.ok "one\ntwo") fileMd).data).length
    ∧ (splitNL (getPreview defaultConfig
        (fun _ => Except.ok "one\ntwo") fileMd).data).length
        ≤ defaultConfig.previewLines :=
  have h := getPreview_bounds defaultConfig (fun _ => Except.ok "one\ntwo") fileMd []
    (by decide)
  ⟨h.1, h.2.1, h.2.2.1⟩
